import Mathlib

/-!
Shallow embedding of the computational kernel of `curlicue.py` — the
per-sample loop of `Curlicue.action_common` — together with theorems
checking the specification of the spiral mesh generator against it.

Floating-point arithmetic is modelled over the reals; Python `**` on a
nonnegative float base is modelled by `Real.rpow`, except that raising
`0.0` to a negative power raises `ZeroDivisionError` in Python, which is
modelled as an explicit fault.
-/

set_option autoImplicit false

namespace Curlicue

/-- A 3D point, as produced by applying a homogeneous 4 x 4 matrix to a
Blender `Vector`. -/
abbrev Vec3 : Type := ℝ × ℝ × ℝ

/-- Faults of the generation loop. `invalidCurveType` models the
`raise Failure("SHOULDNT OCCUR: unrecognized curve type")` in the
`else` branch of the radius computation (caught by `action_common`,
which reports the message and returns CANCELLED). `zeroDivision` models
the Python `ZeroDivisionError` raised by `0.0 ** e` for `e < 0`, which
no handler in the file catches. -/
inductive Fault where
  | invalidCurveType
  | zeroDivision
deriving DecidableEq

/-- Operator parameters: the eight properties declared on the `Curlicue`
operator class. In the declarations, `nr_points` has minimum 1, `radius`
minimum 0.1, and `inner_taper`, `outer_taper`, `linear_offset` and
`radius_ratio` minimum 0; `curve_type` is the raw enum string, with
declared items `"linear"` and `"log"`. -/
structure Params where
  curve_type : String
  nr_points : ℕ
  nr_turns : ℝ
  radius : ℝ
  inner_taper : ℝ
  outer_taper : ℝ
  linear_offset : ℝ
  radius_ratio : ℝ

/-- Python float `**` for a nonnegative base, as used in the logarithmic
radius formula: `0.0 ** e` raises `ZeroDivisionError` for `e < 0`
(modelled as `none`); every other case is real exponentiation, matching
`Real.rpow` (in particular `0.0 ** 0.0 = 1.0` in Python, and
`Real.rpow 0 0 = 1`). -/
noncomputable def pyPow (b e : ℝ) : Option ℝ :=
  if b = 0 ∧ e < 0 then none else some (b ^ e)

/-- Line `angle = i / self.nr_points * self.nr_turns * 2 * math.pi`. -/
noncomputable def angle (p : Params) (i : ℕ) : ℝ :=
  (i : ℝ) / (p.nr_points : ℝ) * p.nr_turns * 2 * Real.pi

/-- The exponent of the logarithmic radius formula,
`angle / (2 * math.pi) - self.nr_turns`. -/
noncomputable def logExponent (p : Params) (i : ℕ) : ℝ :=
  angle p i / (2 * Real.pi) - p.nr_turns

/-- The per-sample radius: the `if / elif / else` at the top of the loop
body. Linear: `i / nr_points * (radius - linear_offset) + linear_offset`.
Logarithmic: `radius * radius_ratio ** (angle / (2 * math.pi) - nr_turns)`.
Any other `curve_type` raises `Failure`. -/
noncomputable def radius_at (p : Params) (i : ℕ) : Except Fault ℝ :=
  if p.curve_type = "linear" then
    .ok ((i : ℝ) / (p.nr_points : ℝ) * (p.radius - p.linear_offset) + p.linear_offset)
  else if p.curve_type = "log" then
    match pyPow (Params.radius_ratio p) (logExponent p i) with
    | some v => .ok (p.radius * v)
    | none => .error Fault.zeroDivision
  else
    .error Fault.invalidCurveType

/-- Line `width = self.outer_taper * i / self.nr_points +
self.inner_taper * (1 - i / self.nr_points)`. -/
noncomputable def width_at (p : Params) (i : ℕ) : ℝ :=
  p.outer_taper * (i : ℝ) / (p.nr_points : ℝ) +
    p.inner_taper * (1 - (i : ℝ) / (p.nr_points : ℝ))

/-- `Matrix.Rotation(theta, 4, "Z")`: homogeneous rotation about Z. -/
noncomputable def rotZ (θ : ℝ) : Matrix (Fin 4) (Fin 4) ℝ :=
  !![Real.cos θ, -Real.sin θ, 0, 0;
     Real.sin θ, Real.cos θ, 0, 0;
     0, 0, 1, 0;
     0, 0, 0, 1]

/-- `Matrix.Translation(v)`: homogeneous translation by `v`. -/
noncomputable def translationM (v : Vec3) : Matrix (Fin 4) (Fin 4) ℝ :=
  !![1, 0, 0, v.1;
     0, 1, 0, v.2.1;
     0, 0, 1, v.2.2;
     0, 0, 0, 1]

/-- Blender `Matrix @ Vector` for a 4 x 4 matrix and a 3D vector: the
vector is promoted to homogeneous coordinates with w = 1 and the first
three components of the matrix-vector product are returned. -/
noncomputable def applyM (M : Matrix (Fin 4) (Fin 4) ℝ) (v : Vec3) : Vec3 :=
  (M.mulVec ![v.1, v.2.1, v.2.2, 1] 0,
   M.mulVec ![v.1, v.2.1, v.2.2, 1] 1,
   M.mulVec ![v.1, v.2.1, v.2.2, 1] 2)

/-- Line `orient = math.pi / 2`. -/
noncomputable def orient : ℝ := Real.pi / 2

/-- `to_midpoint = Matrix.Rotation(angle, 4, "Z") @
Matrix.Translation(Vector((radius, 0, 0)))`. -/
noncomputable def to_midpoint (p : Params) (i : ℕ) (r : ℝ) :
    Matrix (Fin 4) (Fin 4) ℝ :=
  rotZ (angle p i) * translationM (r, 0, 0)

/-- `pt1 = to_midpoint @ Matrix.Rotation(orient + math.pi / 2, 4, "Z") @
Matrix.Translation(Vector((width / 2, 0, 0))) @ Vector((0, 0, 0))`. -/
noncomputable def pt1 (p : Params) (i : ℕ) (r w : ℝ) : Vec3 :=
  applyM (to_midpoint p i r * rotZ (orient + Real.pi / 2) *
    translationM (w / 2, 0, 0)) (0, 0, 0)

/-- `pt2 = to_midpoint @ Matrix.Rotation(orient - math.pi / 2, 4, "Z") @
Matrix.Translation(Vector((width / 2, 0, 0))) @ Vector((0, 0, 0))`. -/
noncomputable def pt2 (p : Params) (i : ℕ) (r w : ℝ) : Vec3 :=
  applyM (to_midpoint p i r * rotZ (orient - Real.pi / 2) *
    translationM (w / 2, 0, 0)) (0, 0, 0)

/-- One iteration of the loop body on the accumulated
`(vertices, faces)` state: compute the radius (possibly faulting), the
width and the two edge points, extend `vertices` with `[pt1, pt2]`, and
if `len(vertices) >= 4` append the face
`list(len(vertices) + i for i in (-4, -3, -1, -2))`. -/
noncomputable def genStep (p : Params) (i : ℕ)
    (st : List Vec3 × List (List ℕ)) :
    Except Fault (List Vec3 × List (List ℕ)) :=
  match radius_at p i with
  | .error e => .error e
  | .ok r =>
    let w := width_at p i
    let vertices := st.1 ++ [pt1 p i r w, pt2 p i r w]
    let faces :=
      if 4 ≤ vertices.length then
        st.2 ++ [[vertices.length - 4, vertices.length - 3,
                  vertices.length - 1, vertices.length - 2]]
      else st.2
    .ok (vertices, faces)

/-- The loop over a list of sample indices, threading the
`(vertices, faces)` state and aborting on the first fault. -/
noncomputable def genFrom (p : Params) :
    List ℕ → List Vec3 × List (List ℕ) →
    Except Fault (List Vec3 × List (List ℕ))
  | [], st => .ok st
  | i :: rest, st =>
    match genStep p i st with
    | .error e => .error e
    | .ok st2 => genFrom p rest st2

/-- The whole generation: `for i in range(self.nr_points)` starting from
empty `vertices` and `faces`. An `.ok` result models the
`(vertices, faces)` pair handed to `from_pydata`; an `.error` models an
exception leaving the loop before any mesh is created, so no partial
output reaches the host. -/
noncomputable def generate (p : Params) :
    Except Fault (List Vec3 × List (List ℕ)) :=
  genFrom p (List.range p.nr_points) ([], [])

/-- The radius value at sample `i` when the radius computation succeeds
(and 0 otherwise, a value never used on the fault path). -/
noncomputable def radiusVal (p : Params) (i : ℕ) : ℝ :=
  ((radius_at p i).toOption).getD 0

/-- First edge point of sample `i` (the one displaced along the
direction `angle + pi`). -/
noncomputable def vert1 (p : Params) (i : ℕ) : Vec3 :=
  pt1 p i (radiusVal p i) (width_at p i)

/-- Second edge point of sample `i` (displaced along direction
`angle`). -/
noncomputable def vert2 (p : Params) (i : ℕ) : Vec3 :=
  pt2 p i (radiusVal p i) (width_at p i)

/-- Closed form of the vertex list: the two edge points of each sample,
in sample order. -/
noncomputable def verts (p : Params) : List Vec3 :=
  (List.range p.nr_points).flatMap (fun i => [vert1 p i, vert2 p i])

/-- Face `k` of the quad strip as an index 4-tuple: previous sample edge
points `2k`, `2k + 1`, then current sample edge points in reversed order
`2k + 3`, `2k + 2`. -/
def faceAt (k : ℕ) : List ℕ := [2 * k, 2 * k + 1, 2 * k + 3, 2 * k + 2]

/-- Closed form of the face list for `n` samples. -/
def facesIdx (n : ℕ) : List (List ℕ) := (List.range (n - 1)).map faceAt

/-- Parameter sets on which every per-sample radius computation
succeeds: a recognized curve type, avoiding `0.0 ** negative` in the
logarithmic branch (nonzero ratio, or nonpositive turn count). -/
def okParams (p : Params) : Prop :=
  p.curve_type = "linear" ∨
    (p.curve_type = "log" ∧ (Params.radius_ratio p ≠ 0 ∨ p.nr_turns ≤ 0))

/-- Euclidean distance between two 3D points. -/
noncomputable def dist3 (a b : Vec3) : ℝ :=
  Real.sqrt ((a.1 - b.1) ^ 2 + (a.2.1 - b.2.1) ^ 2 + (a.2.2 - b.2.2) ^ 2)

/-! Closed forms of the homogeneous-matrix constructions. -/

lemma mulVec_translationM (a b c x y z : ℝ) :
    (translationM (a, b, c)).mulVec ![x, y, z, 1] = ![x + a, y + b, z + c, 1] := by
  funext j
  fin_cases j <;>
    simp [translationM, Matrix.mulVec, Matrix.dotProduct, Fin.sum_univ_four]

lemma mulVec_rotZ (θ x y z : ℝ) :
    (rotZ θ).mulVec ![x, y, z, 1] =
      ![x * Real.cos θ - y * Real.sin θ, x * Real.sin θ + y * Real.cos θ, z, 1] := by
  funext j
  fin_cases j <;>
    simp [rotZ, Matrix.mulVec, Matrix.dotProduct, Fin.sum_univ_four] <;> ring

lemma pt1_eq (p : Params) (i : ℕ) (r w : ℝ) :
    pt1 p i r w = ((r - w / 2) * Real.cos (angle p i),
                   (r - w / 2) * Real.sin (angle p i), 0) := by
  have hor : orient + Real.pi / 2 = Real.pi := by rw [orient]; ring
  have h : (to_midpoint p i r * rotZ (orient + Real.pi / 2) *
      translationM (w / 2, 0, 0)).mulVec ![0, 0, 0, 1] =
      ![(r - w / 2) * Real.cos (angle p i),
        (r - w / 2) * Real.sin (angle p i), 0, 1] := by
    have hchain : (to_midpoint p i r * rotZ (orient + Real.pi / 2) *
        translationM (w / 2, 0, 0)).mulVec ![0, 0, 0, 1] =
        (rotZ (angle p i)).mulVec ((translationM (r, 0, 0)).mulVec
          ((rotZ (orient + Real.pi / 2)).mulVec
            ((translationM (w / 2, 0, 0)).mulVec ![0, 0, 0, 1]))) := by
      simp only [to_midpoint, Matrix.mulVec_mulVec, Matrix.mul_assoc]
    rw [hchain, hor]
    simp only [mulVec_translationM, mulVec_rotZ, Real.cos_pi, Real.sin_pi]
    funext j
    fin_cases j <;>
      simp only [Matrix.cons_val_zero, Matrix.cons_val_one, Matrix.head_cons,
        Matrix.cons_val_two, Matrix.tail_cons, Matrix.cons_val_three,
        Fin.isValue] <;>
      ring
  unfold pt1 applyM
  rw [h]
  simp

lemma pt2_eq (p : Params) (i : ℕ) (r w : ℝ) :
    pt2 p i r w = ((r + w / 2) * Real.cos (angle p i),
                   (r + w / 2) * Real.sin (angle p i), 0) := by
  have hor : orient - Real.pi / 2 = 0 := by rw [orient]; ring
  have h : (to_midpoint p i r * rotZ (orient - Real.pi / 2) *
      translationM (w / 2, 0, 0)).mulVec ![0, 0, 0, 1] =
      ![(r + w / 2) * Real.cos (angle p i),
        (r + w / 2) * Real.sin (angle p i), 0, 1] := by
    have hchain : (to_midpoint p i r * rotZ (orient - Real.pi / 2) *
        translationM (w / 2, 0, 0)).mulVec ![0, 0, 0, 1] =
        (rotZ (angle p i)).mulVec ((translationM (r, 0, 0)).mulVec
          ((rotZ (orient - Real.pi / 2)).mulVec
            ((translationM (w / 2, 0, 0)).mulVec ![0, 0, 0, 1]))) := by
      simp only [to_midpoint, Matrix.mulVec_mulVec, Matrix.mul_assoc]
    rw [hchain, hor]
    simp only [mulVec_translationM, mulVec_rotZ, Real.cos_zero, Real.sin_zero]
    funext j
    fin_cases j <;>
      simp only [Matrix.cons_val_zero, Matrix.cons_val_one, Matrix.head_cons,
        Matrix.cons_val_two, Matrix.tail_cons, Matrix.cons_val_three,
        Fin.isValue] <;>
      ring
  unfold pt2 applyM
  rw [h]
  simp

lemma midpoint_eq (p : Params) (i : ℕ) (r : ℝ) :
    applyM (to_midpoint p i r) (0, 0, 0) =
      (r * Real.cos (angle p i), r * Real.sin (angle p i), 0) := by
  have h : (to_midpoint p i r).mulVec ![0, 0, 0, 1] =
      ![r * Real.cos (angle p i), r * Real.sin (angle p i), 0, 1] := by
    have hchain : (to_midpoint p i r).mulVec ![0, 0, 0, 1] =
        (rotZ (angle p i)).mulVec ((translationM (r, 0, 0)).mulVec ![0, 0, 0, 1]) := by
      simp only [to_midpoint, Matrix.mulVec_mulVec]
    rw [hchain]
    simp only [mulVec_translationM, mulVec_rotZ]
    funext j
    fin_cases j <;>
      simp only [Matrix.cons_val_zero, Matrix.cons_val_one, Matrix.head_cons,
        Matrix.cons_val_two, Matrix.tail_cons, Matrix.cons_val_three,
        Fin.isValue] <;>
      ring
  unfold applyM
  rw [h]
  simp

/-! Arithmetic facts about the per-sample formulas. -/

lemma logExponent_eq (p : Params) (i : ℕ) :
    logExponent p i = p.nr_turns * ((i : ℝ) / (p.nr_points : ℝ) - 1) := by
  have h2π : (2 : ℝ) * Real.pi ≠ 0 := by
    have := Real.pi_pos
    positivity
  unfold logExponent angle
  rw [show (i : ℝ) / (p.nr_points : ℝ) * p.nr_turns * 2 * Real.pi =
      (i : ℝ) / (p.nr_points : ℝ) * p.nr_turns * (2 * Real.pi) by ring,
    mul_div_cancel_right₀ _ h2π]
  ring

lemma radius_at_linear (p : Params) (i : ℕ) (h : p.curve_type = "linear") :
    radius_at p i = .ok ((i : ℝ) / (p.nr_points : ℝ) * (p.radius - p.linear_offset)
      + p.linear_offset) := by
  unfold radius_at
  rw [if_pos h]

lemma radius_at_log (p : Params) (i : ℕ) (h : p.curve_type = "log")
    (hok : Params.radius_ratio p ≠ 0 ∨ 0 ≤ logExponent p i) :
    radius_at p i = .ok (p.radius * Params.radius_ratio p ^ logExponent p i) := by
  have h1 : ¬ p.curve_type = "linear" := by rw [h]; decide
  have hne : ¬(Params.radius_ratio p = 0 ∧ logExponent p i < 0) := by
    rcases hok with h0 | h0
    · exact fun hc => h0 hc.1
    · exact fun hc => absurd hc.2 (not_lt.mpr h0)
  unfold radius_at pyPow
  rw [if_neg h1, if_pos h, if_neg hne]

lemma radius_at_log_fault (p : Params) (i : ℕ) (h : p.curve_type = "log")
    (h0 : Params.radius_ratio p = 0) (hneg : logExponent p i < 0) :
    radius_at p i = .error Fault.zeroDivision := by
  have h1 : ¬ p.curve_type = "linear" := by rw [h]; decide
  unfold radius_at pyPow
  rw [if_neg h1, if_pos h, if_pos ⟨h0, hneg⟩]

lemma radius_at_invalid (p : Params) (i : ℕ) (h1 : p.curve_type ≠ "linear")
    (h2 : p.curve_type ≠ "log") :
    radius_at p i = .error Fault.invalidCurveType := by
  unfold radius_at
  rw [if_neg h1, if_neg h2]

lemma okParams_radius_ok (p : Params) (hok : okParams p) (i : ℕ)
    (hi : i < p.nr_points) : ∃ r, radius_at p i = .ok r := by
  rcases hok with h | ⟨h, hcase⟩
  · exact ⟨_, radius_at_linear p i h⟩
  · refine ⟨_, radius_at_log p i h ?_⟩
    rcases hcase with h0 | h0
    · exact Or.inl h0
    · right
      rw [logExponent_eq]
      have hnp0 : 0 < p.nr_points := Nat.lt_of_le_of_lt (Nat.zero_le i) hi
      have hnp : (0 : ℝ) < (p.nr_points : ℝ) := by exact_mod_cast hnp0
      have ht : (i : ℝ) / (p.nr_points : ℝ) - 1 ≤ 0 := by
        have hle : (i : ℝ) ≤ (p.nr_points : ℝ) := by exact_mod_cast hi.le
        exact sub_nonpos.mpr ((div_le_one hnp).mpr hle)
      exact mul_nonneg_of_nonpos_of_nonpos h0 ht

/-! Closed form of the generation loop. -/

lemma radiusVal_eq (p : Params) (i : ℕ) (r : ℝ) (h : radius_at p i = .ok r) :
    radiusVal p i = r := by
  unfold radiusVal
  rw [h]
  rfl

lemma genFrom_cons_ok (p : Params) (i : ℕ) (rest : List ℕ)
    (st st2 : List Vec3 × List (List ℕ)) (h : genStep p i st = .ok st2) :
    genFrom p (i :: rest) st = genFrom p rest st2 := by
  show (match genStep p i st with
    | Except.error e => Except.error e
    | Except.ok s2 => genFrom p rest s2) = genFrom p rest st2
  rw [h]

lemma genFrom_cons_error (p : Params) (i : ℕ) (rest : List ℕ)
    (st : List Vec3 × List (List ℕ)) (e : Fault) (h : genStep p i st = .error e) :
    genFrom p (i :: rest) st = .error e := by
  show (match genStep p i st with
    | Except.error e2 => Except.error e2
    | Except.ok s2 => genFrom p rest s2) = Except.error e
  rw [h]

lemma genStep_ok (p : Params) (i : ℕ) (vs : List Vec3) (fs : List (List ℕ))
    (r : ℝ) (hr : radius_at p i = .ok r) :
    genStep p i (vs, fs) =
      .ok (vs ++ [vert1 p i, vert2 p i],
        if 4 ≤ vs.length + 2 then
          fs ++ [[vs.length + 2 - 4, vs.length + 2 - 3,
                  vs.length + 2 - 1, vs.length + 2 - 2]]
        else fs) := by
  have hv := radiusVal_eq p i r hr
  unfold genStep
  rw [hr]
  simp only [vert1, vert2, hv, List.length_append, List.length_cons,
    List.length_nil]

lemma range_eq_cons (n : ℕ) (hn : 1 ≤ n) :
    List.range n = 0 :: List.range' 1 (n - 1) := by
  rw [List.range_eq_range']
  obtain ⟨m, hm⟩ := Nat.exists_eq_add_of_le hn
  rw [hm, show 1 + m = m + 1 by omega, List.range'_succ]
  simp

lemma genFrom_closed (p : Params) (n : ℕ) :
    ∀ (s : ℕ) (vs : List Vec3) (fs : List (List ℕ)), 1 ≤ s →
      vs.length = 2 * s →
      (∀ i, s ≤ i → i < s + n → ∃ r, radius_at p i = .ok r) →
      genFrom p (List.range' s n) (vs, fs) =
        .ok (vs ++ (List.range' s n).flatMap (fun i => [vert1 p i, vert2 p i]),
             fs ++ (List.range' s n).map (fun i => faceAt (i - 1))) := by
  induction n with
  | zero =>
    intro s vs fs _ _ _
    simp [genFrom]
  | succ n ih =>
    intro s vs fs hs hvs hok
    obtain ⟨r, hr⟩ := hok s (le_refl s) (by omega)
    have hstep := genStep_ok p s vs fs r hr
    rw [if_pos (by omega)] at hstep
    have hface : [vs.length + 2 - 4, vs.length + 2 - 3,
        vs.length + 2 - 1, vs.length + 2 - 2] = faceAt (s - 1) := by
      unfold faceAt
      rw [hvs]
      have h1 : 2 * s + 2 - 4 = 2 * (s - 1) := by omega
      have h2 : 2 * s + 2 - 3 = 2 * (s - 1) + 1 := by omega
      have h3 : 2 * s + 2 - 1 = 2 * (s - 1) + 3 := by omega
      have h4 : 2 * s + 2 - 2 = 2 * (s - 1) + 2 := by omega
      rw [h1, h2, h3, h4]
    rw [hface] at hstep
    rw [List.range'_succ,
      genFrom_cons_ok p s (List.range' (s + 1) n) (vs, fs) _ hstep]
    have hlen : (vs ++ [vert1 p s, vert2 p s]).length = 2 * (s + 1) := by
      simp [hvs]
      omega
    rw [ih (s + 1) (vs ++ [vert1 p s, vert2 p s]) (fs ++ [faceAt (s - 1)])
      (by omega) hlen (fun i h1 h2 => hok i (by omega) (by omega))]
    simp [List.append_assoc]

lemma generate_closed (p : Params) (hnp : 1 ≤ p.nr_points)
    (hok : ∀ i, i < p.nr_points → ∃ r, radius_at p i = .ok r) :
    generate p = .ok (verts p, facesIdx p.nr_points) := by
  obtain ⟨r0, hr0⟩ := hok 0 hnp
  have hstep0 := genStep_ok p 0 [] [] r0 hr0
  rw [if_neg (by simp)] at hstep0
  have hrange := range_eq_cons p.nr_points hnp
  unfold generate
  rw [hrange,
    genFrom_cons_ok p 0 (List.range' 1 (p.nr_points - 1)) ([], []) _ hstep0]
  simp only [List.nil_append]
  rw [genFrom_closed p (p.nr_points - 1) 1 [vert1 p 0, vert2 p 0] []
    (le_refl 1) (by simp) (fun i h1 h2 => hok i (by omega))]
  have hverts : verts p =
      [vert1 p 0, vert2 p 0] ++
        (List.range' 1 (p.nr_points - 1)).flatMap
          (fun i => [vert1 p i, vert2 p i]) := by
    unfold verts
    rw [hrange, List.flatMap_cons]
  have hfaces : facesIdx p.nr_points =
      [] ++ (List.range' 1 (p.nr_points - 1)).map (fun i => faceAt (i - 1)) := by
    unfold facesIdx
    rw [List.range'_eq_map_range, List.map_map, List.nil_append]
    apply List.map_congr_left
    intro a _
    simp [Function.comp]
  rw [hverts, hfaces]

lemma verts_length (p : Params) : (verts p).length = 2 * p.nr_points := by
  unfold verts
  rw [List.length_flatMap]
  have : List.map (List.length ∘ fun i => [vert1 p i, vert2 p i])
      (List.range p.nr_points) = List.replicate p.nr_points 2 := by
    rw [show (List.length ∘ fun i => [vert1 p i, vert2 p i]) = fun _ => 2 by
      funext i; rfl]
    rw [List.map_const', List.length_range]
  rw [this, List.sum_replicate, smul_eq_mul]
  omega

lemma facesIdx_length (n : ℕ) : (facesIdx n).length = n - 1 := by
  simp [facesIdx]

lemma genFrom_ok_radius (p : Params) :
    ∀ (l : List ℕ) (st out : List Vec3 × List (List ℕ)),
      genFrom p l st = .ok out → ∀ i ∈ l, ∃ r, radius_at p i = .ok r := by
  intro l
  induction l with
  | nil =>
    intro st out _ i hi
    simp at hi
  | cons a rest ih =>
    intro st out hgen i hi
    cases hrad : radius_at p a with
    | error e =>
      have hse : genStep p a st = .error e := by unfold genStep; rw [hrad]
      rw [genFrom_cons_error p a rest st e hse] at hgen
      exact absurd hgen (by simp)
    | ok r =>
      have hstep : ∃ st2, genStep p a st = .ok st2 := by
        unfold genStep
        rw [hrad]
        exact ⟨_, rfl⟩
      obtain ⟨st2, hstep⟩ := hstep
      rw [genFrom_cons_ok p a rest st st2 hstep] at hgen
      rcases List.mem_cons.mp hi with h | h
      · exact h ▸ ⟨r, hrad⟩
      · exact ih st2 out hgen i h

lemma generate_ok_inv (p : Params) (vs : List Vec3) (fs : List (List ℕ))
    (hnp : 1 ≤ p.nr_points) (h : generate p = .ok (vs, fs)) :
    vs = verts p ∧ fs = facesIdx p.nr_points := by
  have hok : ∀ i, i < p.nr_points → ∃ r, radius_at p i = .ok r := by
    intro i hi
    exact genFrom_ok_radius p (List.range p.nr_points) ([], []) (vs, fs) h i
      (List.mem_range.mpr hi)
  have hcl := generate_closed p hnp hok
  rw [h] at hcl
  have h2 := Except.ok.inj hcl
  exact ⟨congrArg Prod.fst h2, congrArg Prod.snd h2⟩


/-- On the logarithmic curve type with `radius_ratio = 0` and a positive
turn count, the very first sample already evaluates `0.0 ** e` with
`e = -nr_turns < 0`, so generation aborts with the `ZeroDivisionError`
fault before producing anything. -/
lemma generate_log_ratio0_fault (p : Params) (hct : p.curve_type = "log")
    (hρ : Params.radius_ratio p = 0) (ht : 0 < p.nr_turns)
    (hnp : 1 ≤ p.nr_points) : generate p = .error Fault.zeroDivision := by
  have hneg : logExponent p 0 < 0 := by
    rw [logExponent_eq]
    simp only [Nat.cast_zero, zero_div, zero_sub]
    rw [mul_neg, mul_one]
    exact neg_neg_of_pos ht
  have hrad := radius_at_log_fault p 0 hct hρ hneg
  have hse : genStep p 0 ([], []) = .error Fault.zeroDivision := by
    unfold genStep
    rw [hrad]
  unfold generate
  rw [range_eq_cons p.nr_points hnp]
  exact genFrom_cons_error p 0 _ ([], []) _ hse

/-! Claim theorems. -/

/-- C1 counterexample: the parameter set curve_type = "log",
nr_points = 1, nr_turns = 1, radius = 1, inner_taper = 0.1,
outer_taper = 0, linear_offset = 0, radius_ratio = 0 satisfies every
collaborator-enforced bound and has a recognized curve type, yet
generation aborts with the ZeroDivisionError fault (Python evaluates
`0.0 ** -1.0` at the first sample) and produces no vertices at all,
not the 2 * nr_points = 2 vertices the claim asserts. -/
theorem C1_counts_counterexample :
    generate ⟨"log", 1, 1, 1, 1/10, 0, 0, 0⟩ = .error Fault.zeroDivision ∧
    ¬∃ vs fs, generate ⟨"log", 1, 1, 1, 1/10, 0, 0, 0⟩ = .ok (vs, fs) := by
  have h := generate_log_ratio0_fault ⟨"log", 1, 1, 1, 1/10, 0, 0, 0⟩ rfl rfl
    (show (0:ℝ) < 1 by norm_num) (show 1 ≤ 1 by norm_num)
  refine ⟨h, ?_⟩
  rintro ⟨vs, fs, hok⟩
  rw [h] at hok
  exact absurd hok (by simp)

/-- C1 (amended): for every parameter set with nr_points >= 1 and a
recognized curve type that avoids the zero-to-negative-power fault
(curve_type = "linear", or curve_type = "log" with radius_ratio nonzero
or nr_turns nonpositive), generation succeeds and produces exactly
2 * nr_points vertices and nr_points - 1 faces; in particular, for
nr_points = 1, exactly 2 vertices and 0 faces. -/
theorem C1_counts (p : Params) (hnp : 1 ≤ p.nr_points) (hok : okParams p) :
    ∃ vs fs, generate p = .ok (vs, fs) ∧ vs.length = 2 * p.nr_points ∧
      fs.length = p.nr_points - 1 ∧
      (p.nr_points = 1 → vs.length = 2 ∧ fs.length = 0) := by
  refine ⟨verts p, facesIdx p.nr_points,
    generate_closed p hnp (okParams_radius_ok p hok),
    verts_length p, facesIdx_length p.nr_points, fun h1 => ?_⟩
  rw [verts_length p, facesIdx_length p.nr_points, h1]
  exact ⟨rfl, rfl⟩

/-- Witness for C1 at nr_points = 1 with the linear curve type. -/
theorem C1_counts_witness :
    ∃ vs fs, generate ⟨"linear", 1, 0, 1, 1/10, 0, 0, 1⟩ = Except.ok (vs, fs) ∧
      vs.length = 2 ∧ fs.length = 0 := by
  obtain ⟨vs, fs, h1, _, _, h4⟩ :=
    C1_counts ⟨"linear", 1, 0, 1, 1/10, 0, 0, 1⟩ (show 1 ≤ 1 by norm_num)
      (Or.inl rfl)
  exact ⟨vs, fs, h1, (h4 rfl).1, (h4 rfl).2⟩

/-- C4 (code bug): the failing input curve_type = "log", nr_points = 2,
nr_turns = 1, radius = 1, inner_taper = 0.1, outer_taper = 0,
linear_offset = 0, radius_ratio = 0 satisfies every collaborator-enforced
precondition (the radius_ratio property declares minimum 0), yet the
exponentiation `0.0 ** -1.0` at the first sample raises an uncaught
ZeroDivisionError: generation has an arithmetic failure mode beyond the
invalid-curve-type fault. -/
theorem C4_arith_fault :
    generate ⟨"log", 2, 1, 1, 1/10, 0, 0, 0⟩ = .error Fault.zeroDivision := by
  exact generate_log_ratio0_fault ⟨"log", 2, 1, 1, 1/10, 0, 0, 0⟩ rfl rfl
    (show (0:ℝ) < 1 by norm_num) (show 1 ≤ 2 by norm_num)

/-- C5: an unrecognized curve type aborts the whole generation with the
invalid-curve-type fault (the `Failure` raised in the `else` branch),
for every nr_points >= 1, and no `(vertices, faces)` output exists:
all-or-nothing, nothing is handed to the host. -/
theorem C5_invalid_curve_type (p : Params) (h1 : p.curve_type ≠ "linear")
    (h2 : p.curve_type ≠ "log") (hnp : 1 ≤ p.nr_points) :
    generate p = .error Fault.invalidCurveType ∧
    ¬∃ vs fs, generate p = .ok (vs, fs) := by
  have hrad := radius_at_invalid p 0 h1 h2
  have hse : genStep p 0 ([], []) = .error Fault.invalidCurveType := by
    unfold genStep
    rw [hrad]
  have hgen : generate p = .error Fault.invalidCurveType := by
    unfold generate
    rw [range_eq_cons p.nr_points hnp]
    exact genFrom_cons_error p 0 _ ([], []) _ hse
  refine ⟨hgen, ?_⟩
  rintro ⟨vs, fs, hok⟩
  rw [hgen] at hok
  exact absurd hok (by simp)

/-- Witness for C5 at the unrecognized curve type "cubic". -/
theorem C5_invalid_curve_type_witness :
    generate ⟨"cubic", 1, 1, 1, 0, 0, 0, 1⟩ = .error Fault.invalidCurveType := by
  exact (C5_invalid_curve_type ⟨"cubic", 1, 1, 1, 0, 0, 0, 1⟩
    (by decide) (by decide) (show 1 ≤ 1 by norm_num)).1

/-- C9 counterexample: with inner_taper = outer_taper = 0 and the
otherwise-valid parameter set curve_type = "log", nr_points = 1,
nr_turns = 1, radius = 1, radius_ratio = 0, the generator does fault
(ZeroDivisionError from `0.0 ** -1.0`) and produces no vertices,
contradicting the claim that it never faults and always produces
coincident vertex pairs. -/
theorem C9_zero_width_counterexample :
    generate ⟨"log", 1, 1, 1, 0, 0, 0, 0⟩ = .error Fault.zeroDivision ∧
    ¬∃ vs fs, generate ⟨"log", 1, 1, 1, 0, 0, 0, 0⟩ = .ok (vs, fs) := by
  have h := generate_log_ratio0_fault ⟨"log", 1, 1, 1, 0, 0, 0, 0⟩ rfl rfl
    (show (0:ℝ) < 1 by norm_num) (show 1 ≤ 1 by norm_num)
  refine ⟨h, ?_⟩
  rintro ⟨vs, fs, hok⟩
  rw [h] at hok
  exact absurd hok (by simp)

/-- C9 (amended): with inner_taper = outer_taper = 0, for every
parameter set with nr_points >= 1 and a recognized curve type avoiding
the zero-to-negative-power fault, generation succeeds, the width is 0 at
every sample, the two edge points of every sample coincide and equal the
sample midpoint, and the output still has 2 * nr_points vertices
(coincident in pairs) and nr_points - 1 faces. -/
theorem C9_zero_width (p : Params) (hnp : 1 ≤ p.nr_points)
    (hin : p.inner_taper = 0) (hout : p.outer_taper = 0) (hok : okParams p) :
    ∃ vs fs, generate p = .ok (vs, fs) ∧ vs.length = 2 * p.nr_points ∧
      fs.length = p.nr_points - 1 ∧
      (∀ i, width_at p i = 0) ∧
      (∀ i, vert1 p i = vert2 p i ∧
        vert1 p i = applyM (to_midpoint p i (radiusVal p i)) (0, 0, 0)) ∧
      vs = (List.range p.nr_points).flatMap (fun i => [vert1 p i, vert1 p i]) := by
  have hw : ∀ i, width_at p i = 0 := by
    intro i
    unfold width_at
    rw [hin, hout]
    ring
  have hco : ∀ i, vert1 p i = vert2 p i := by
    intro i
    unfold vert1 vert2
    rw [pt1_eq, pt2_eq, hw]
    norm_num
  have hmid : ∀ i, vert1 p i = applyM (to_midpoint p i (radiusVal p i)) (0, 0, 0) := by
    intro i
    unfold vert1
    rw [pt1_eq, midpoint_eq, hw]
    norm_num
  refine ⟨verts p, facesIdx p.nr_points,
    generate_closed p hnp (okParams_radius_ok p hok),
    verts_length p, facesIdx_length p.nr_points, hw,
    fun i => ⟨hco i, hmid i⟩, ?_⟩
  unfold verts
  exact congrArg _ (funext fun i => by rw [hco i])

/-- Witness for C9 at the linear curve type with zero tapers. -/
theorem C9_zero_width_witness :
    ∃ vs fs, generate ⟨"linear", 1, 0, 1, 0, 0, 0, 1⟩ = Except.ok (vs, fs) ∧
      vs.length = 2 ∧ fs.length = 0 ∧
      vert1 ⟨"linear", 1, 0, 1, 0, 0, 0, 1⟩ 0 = vert2 ⟨"linear", 1, 0, 1, 0, 0, 0, 1⟩ 0 := by
  obtain ⟨vs, fs, h1, h2, h3, _, h5, _⟩ :=
    C9_zero_width ⟨"linear", 1, 0, 1, 0, 0, 0, 1⟩ (show 1 ≤ 1 by norm_num)
      rfl rfl (Or.inl rfl)
  exact ⟨vs, fs, h1, h2, h3, (h5 0).1⟩

/-- C3: on the logarithmic curve type, the exponent
`angle / (2 pi) - nr_turns` equals `nr_turns * (i / nr_points - 1)`, is
nonpositive for i < nr_points when nr_turns >= 0, the sample radius (when
the computation succeeds) is exactly
`radius * radius_ratio ^ (angle / (2 pi) - nr_turns)`, and at the
unreached endpoint i = nr_points the exponent is 0, anchoring the formula
at exactly `radius` there. -/
theorem C3_log_radius_formula (p : Params) (i : ℕ) (hct : p.curve_type = "log")
    (hnp : 1 ≤ p.nr_points) (hi : i < p.nr_points) (ht : 0 ≤ p.nr_turns) :
    logExponent p i = p.nr_turns * ((i : ℝ) / (p.nr_points : ℝ) - 1) ∧
    logExponent p i ≤ 0 ∧
    (∀ r, radius_at p i = .ok r →
      r = p.radius * Params.radius_ratio p ^ logExponent p i) ∧
    logExponent p p.nr_points = 0 ∧
    p.radius * Params.radius_ratio p ^ logExponent p p.nr_points = p.radius := by
  have hnpR : (0 : ℝ) < (p.nr_points : ℝ) := by exact_mod_cast hnp
  have hnpne : (p.nr_points : ℝ) ≠ 0 := ne_of_gt hnpR
  have hend : logExponent p p.nr_points = 0 := by
    rw [logExponent_eq, div_self hnpne]
    ring
  refine ⟨logExponent_eq p i, ?_, ?_, hend, by rw [hend, Real.rpow_zero, mul_one]⟩
  · rw [logExponent_eq]
    have hfrac : (i : ℝ) / (p.nr_points : ℝ) - 1 ≤ 0 := by
      have hle : (i : ℝ) ≤ (p.nr_points : ℝ) := by exact_mod_cast hi.le
      exact sub_nonpos.mpr ((div_le_one hnpR).mpr hle)
    exact mul_nonpos_iff.mpr (Or.inl ⟨ht, hfrac⟩)
  · intro r hr
    by_cases hc : Params.radius_ratio p = 0 ∧ logExponent p i < 0
    · rw [radius_at_log_fault p i hct hc.1 hc.2] at hr
      exact absurd hr (by simp)
    · have hcase : Params.radius_ratio p ≠ 0 ∨ 0 ≤ logExponent p i := by
        rcases not_and_or.mp hc with h0 | h0
        · exact Or.inl h0
        · exact Or.inr (not_lt.mp h0)
      rw [radius_at_log p i hct hcase] at hr
      exact (Except.ok.inj hr).symm

/-- Witness for C3 at nr_points = 2, nr_turns = 1, radius_ratio = 1,
sample i = 1. -/
theorem C3_log_radius_formula_witness :
    logExponent ⟨"log", 2, 1, 1, 0, 0, 0, 1⟩ 1 ≤ 0 ∧
    logExponent ⟨"log", 2, 1, 1, 0, 0, 0, 1⟩ 2 = 0 := by
  have h := C3_log_radius_formula ⟨"log", 2, 1, 1, 0, 0, 0, 1⟩ 1 rfl
    (show 1 ≤ 2 by norm_num) (show 1 < 2 by norm_num) (show (0:ℝ) ≤ 1 by norm_num)
  exact ⟨h.2.1, h.2.2.2.1⟩

/-- C6: on the linear curve type with linear_offset < radius, the sample
radius is strictly increasing in the sample index, equals linear_offset
exactly at index 0, and stays strictly below radius at every index
i < nr_points. -/
theorem C6_linear_monotone (p : Params) (hct : p.curve_type = "linear")
    (hnp : 1 ≤ p.nr_points) (hlt : p.linear_offset < p.radius) :
    (∀ i j : ℕ, i < j → ∀ ri rj, radius_at p i = .ok ri →
      radius_at p j = .ok rj → ri < rj) ∧
    radius_at p 0 = .ok p.linear_offset ∧
    (∀ i, i < p.nr_points → ∀ r, radius_at p i = .ok r → r < p.radius) := by
  have hnpR : (0 : ℝ) < (p.nr_points : ℝ) := by exact_mod_cast hnp
  have hsub : (0 : ℝ) < p.radius - p.linear_offset := sub_pos.mpr hlt
  refine ⟨?_, ?_, ?_⟩
  · intro i j hij ri rj hri hrj
    rw [radius_at_linear p i hct] at hri
    rw [radius_at_linear p j hct] at hrj
    have hei := (Except.ok.inj hri).symm
    have hej := (Except.ok.inj hrj).symm
    rw [hei, hej]
    have hdiv : (i : ℝ) / (p.nr_points : ℝ) < (j : ℝ) / (p.nr_points : ℝ) :=
      (div_lt_div_iff_of_pos_right hnpR).mpr (by exact_mod_cast hij)
    have := mul_lt_mul_of_pos_right hdiv hsub
    linarith
  · rw [radius_at_linear p 0 hct]
    norm_num
  · intro i hi r hr
    rw [radius_at_linear p i hct] at hr
    have he := (Except.ok.inj hr).symm
    rw [he]
    have h1 : (i : ℝ) / (p.nr_points : ℝ) < 1 :=
      (div_lt_one hnpR).mpr (by exact_mod_cast hi)
    have := mul_lt_mul_of_pos_right h1 hsub
    linarith

/-- Witness for C6 at nr_points = 2, radius = 1, linear_offset = 0:
radius_0 = 0 < radius_1 = 1/2 < radius = 1. -/
theorem C6_linear_monotone_witness :
    radius_at ⟨"linear", 2, 0, 1, 0, 0, 0, 1⟩ 0 = .ok 0 ∧
    radius_at ⟨"linear", 2, 0, 1, 0, 0, 0, 1⟩ 1 = .ok (1/2) ∧
    ((0:ℝ) < 1/2) ∧ ((1/2:ℝ) < 1) := by
  have h := C6_linear_monotone ⟨"linear", 2, 0, 1, 0, 0, 0, 1⟩ rfl
    (show 1 ≤ 2 by norm_num) (show (0:ℝ) < 1 by norm_num)
  have hr0 : radius_at ⟨"linear", 2, 0, 1, 0, 0, 0, 1⟩ 0 = .ok 0 := h.2.1
  have hr1 : radius_at ⟨"linear", 2, 0, 1, 0, 0, 0, 1⟩ 1 = .ok (1/2) := by
    rw [radius_at_linear ⟨"linear", 2, 0, 1, 0, 0, 0, 1⟩ 1 rfl]
    norm_num
  exact ⟨hr0, hr1, h.1 0 1 (by norm_num) 0 (1/2) hr0 hr1,
    h.2.2 1 (show 1 < 2 by norm_num) (1/2) hr1⟩

/-- C7: the ribbon width at sample i equals
`outer_taper * t + inner_taper * (1 - t)` with `t = i / nr_points`; it is
exactly inner_taper at i = 0 and exactly outer_taper at the unreached
endpoint i = nr_points. -/
theorem C7_width_interpolation (p : Params) (i : ℕ) (hnp : 1 ≤ p.nr_points) :
    width_at p i = p.outer_taper * ((i : ℝ) / (p.nr_points : ℝ)) +
      p.inner_taper * (1 - (i : ℝ) / (p.nr_points : ℝ)) ∧
    width_at p 0 = p.inner_taper ∧
    width_at p p.nr_points = p.outer_taper := by
  have hnpne : (p.nr_points : ℝ) ≠ 0 := by
    have : (0 : ℝ) < (p.nr_points : ℝ) := by exact_mod_cast hnp
    exact ne_of_gt this
  refine ⟨by unfold width_at; ring, by unfold width_at; norm_num, ?_⟩
  unfold width_at
  rw [mul_div_assoc, div_self hnpne]
  ring

/-- Witness for C7 at the concrete scenario nr_points = 4,
inner_taper = 0.2, outer_taper = 0. -/
theorem C7_width_interpolation_witness :
    width_at ⟨"linear", 4, 1, 2, 1/5, 0, 0, 1⟩ 0 = 1/5 ∧
    width_at ⟨"linear", 4, 1, 2, 1/5, 0, 0, 1⟩ 4 = 0 := by
  have h0 := C7_width_interpolation ⟨"linear", 4, 1, 2, 1/5, 0, 0, 1⟩ 0
    (show 1 ≤ 4 by norm_num)
  have h4 := C7_width_interpolation ⟨"linear", 4, 1, 2, 1/5, 0, 0, 1⟩ 4
    (show 1 ≤ 4 by norm_num)
  exact ⟨h0.2.1, h4.2.2⟩

/-- C8 counterexample: with curve_type = "log", nr_points = 1,
nr_turns = 2, radius = 1, radius_ratio = 1/2, the last sample is i = 0
and its radius is `1 * (1/2) ^ (-2) = 4`, which is NOT between
`radius * radius_ratio = 1/2` and `radius / radius_ratio = 2`: when
|nr_turns| exceeds nr_points the last sample is more than one
factor-of-radius_ratio step away from radius. -/
theorem C8_last_sample_counterexample :
    radius_at ⟨"log", 1, 2, 1, 0, 0, 0, 1/2⟩ 0 = .ok 4 ∧
    ¬((4:ℝ) ≤ max ((1:ℝ) * (1/2)) ((1:ℝ) / (1/2))) := by
  have hexp : logExponent ⟨"log", 1, 2, 1, 0, 0, 0, 1/2⟩ 0 = -2 := by
    rw [logExponent_eq]
    norm_num
  have hpow : ((1:ℝ)/2) ^ (-2 : ℝ) = 4 := by
    rw [show (-2 : ℝ) = ((-2 : ℤ) : ℝ) by norm_num, Real.rpow_intCast]
    norm_num
  constructor
  · rw [radius_at_log ⟨"log", 1, 2, 1, 0, 0, 0, 1/2⟩ 0 rfl
      (Or.inl (show ((1:ℝ)/2) ≠ 0 by norm_num)), hexp]
    norm_num [hpow]
  · rw [show max ((1:ℝ) * (1/2)) ((1:ℝ) / (1/2)) = 2 by norm_num [max_def]]
    norm_num

/-- C8 (amended): on the logarithmic curve type with radius_ratio > 0,
radius > 0 and additionally |nr_turns| <= nr_points, the last-sample
radius equals `radius * radius_ratio ^ (-nr_turns / nr_points)` and lies
between `radius * radius_ratio` and `radius / radius_ratio`; without the
|nr_turns| <= nr_points bound the radius can leave that interval. -/
theorem C8_last_sample (p : Params) (hct : p.curve_type = "log")
    (hnp : 1 ≤ p.nr_points) (hρ : 0 < Params.radius_ratio p)
    (hrad : 0 < p.radius) (hT : |p.nr_turns| ≤ (p.nr_points : ℝ)) :
    radius_at p (p.nr_points - 1) =
      .ok (p.radius * Params.radius_ratio p ^ (-p.nr_turns / (p.nr_points : ℝ))) ∧
    min (p.radius * Params.radius_ratio p) (p.radius / Params.radius_ratio p) ≤
      p.radius * Params.radius_ratio p ^ (-p.nr_turns / (p.nr_points : ℝ)) ∧
    p.radius * Params.radius_ratio p ^ (-p.nr_turns / (p.nr_points : ℝ)) ≤
      max (p.radius * Params.radius_ratio p) (p.radius / Params.radius_ratio p) := by
  have hnpR : (0 : ℝ) < (p.nr_points : ℝ) := by exact_mod_cast hnp
  have habs := abs_le.mp hT
  have hexp : logExponent p (p.nr_points - 1) = -p.nr_turns / (p.nr_points : ℝ) := by
    rw [logExponent_eq, Nat.cast_sub hnp, Nat.cast_one]
    field_simp
  have h1 : radius_at p (p.nr_points - 1) =
      .ok (p.radius * Params.radius_ratio p ^ (-p.nr_turns / (p.nr_points : ℝ))) := by
    rw [radius_at_log p _ hct (Or.inl (ne_of_gt hρ)), hexp]
  have he1 : -p.nr_turns / (p.nr_points : ℝ) ≤ 1 := by
    rw [div_le_one hnpR]
    linarith [habs.1]
  have he2 : (-1 : ℝ) ≤ -p.nr_turns / (p.nr_points : ℝ) := by
    rw [le_div_iff₀ hnpR]
    linarith [habs.2]
  set ρ := Params.radius_ratio p with hρdef
  set e := -p.nr_turns / (p.nr_points : ℝ) with hedef
  have hlow : min ρ ρ⁻¹ ≤ ρ ^ e := by
    rcases le_or_lt 1 ρ with h1ρ | h1ρ
    · calc min ρ ρ⁻¹ ≤ ρ⁻¹ := min_le_right _ _
        _ = ρ ^ (-1 : ℝ) := (Real.rpow_neg_one ρ).symm
        _ ≤ ρ ^ e := Real.rpow_le_rpow_of_exponent_le h1ρ he2
    · calc min ρ ρ⁻¹ ≤ ρ := min_le_left _ _
        _ = ρ ^ (1 : ℝ) := (Real.rpow_one ρ).symm
        _ ≤ ρ ^ e := Real.rpow_le_rpow_of_exponent_ge hρ h1ρ.le he1
  have hhigh : ρ ^ e ≤ max ρ ρ⁻¹ := by
    rcases le_or_lt 1 ρ with h1ρ | h1ρ
    · calc ρ ^ e ≤ ρ ^ (1 : ℝ) := Real.rpow_le_rpow_of_exponent_le h1ρ he1
        _ = ρ := Real.rpow_one ρ
        _ ≤ max ρ ρ⁻¹ := le_max_left _ _
    · calc ρ ^ e ≤ ρ ^ (-1 : ℝ) := Real.rpow_le_rpow_of_exponent_ge hρ h1ρ.le he2
        _ = ρ⁻¹ := Real.rpow_neg_one ρ
        _ ≤ max ρ ρ⁻¹ := le_max_right _ _
  refine ⟨h1, ?_, ?_⟩
  · have hml : p.radius * min ρ ρ⁻¹ ≤ p.radius * ρ ^ e :=
      mul_le_mul_of_nonneg_left hlow hrad.le
    rcases min_cases ρ ρ⁻¹ with ⟨hm, _⟩ | ⟨hm, _⟩
    · calc min (p.radius * ρ) (p.radius / ρ) ≤ p.radius * ρ := min_le_left _ _
        _ = p.radius * min ρ ρ⁻¹ := by rw [hm]
        _ ≤ p.radius * ρ ^ e := hml
    · calc min (p.radius * ρ) (p.radius / ρ) ≤ p.radius / ρ := min_le_right _ _
        _ = p.radius * ρ⁻¹ := div_eq_mul_inv _ _
        _ = p.radius * min ρ ρ⁻¹ := by rw [hm]
        _ ≤ p.radius * ρ ^ e := hml
  · have hmh : p.radius * ρ ^ e ≤ p.radius * max ρ ρ⁻¹ :=
      mul_le_mul_of_nonneg_left hhigh hrad.le
    rcases max_cases ρ ρ⁻¹ with ⟨hm, _⟩ | ⟨hm, _⟩
    · calc p.radius * ρ ^ e ≤ p.radius * max ρ ρ⁻¹ := hmh
        _ = p.radius * ρ := by rw [hm]
        _ ≤ max (p.radius * ρ) (p.radius / ρ) := le_max_left _ _
    · calc p.radius * ρ ^ e ≤ p.radius * max ρ ρ⁻¹ := hmh
        _ = p.radius * ρ⁻¹ := by rw [hm]
        _ = p.radius / ρ := (div_eq_mul_inv _ _).symm
        _ ≤ max (p.radius * ρ) (p.radius / ρ) := le_max_right _ _

/-- Witness for C8 (amended) at nr_points = 2, nr_turns = 1, radius = 1,
radius_ratio = 1/2. -/
theorem C8_last_sample_witness :
    ∃ v : ℝ, radius_at ⟨"log", 2, 1, 1, 0, 0, 0, 1/2⟩ 1 = .ok v ∧
      min ((1:ℝ) * (1/2)) ((1:ℝ) / (1/2)) ≤ v ∧
      v ≤ max ((1:ℝ) * (1/2)) ((1:ℝ) / (1/2)) := by
  have h := C8_last_sample ⟨"log", 2, 1, 1, 0, 0, 0, 1/2⟩ rfl
    (show 1 ≤ 2 by norm_num) (show (0:ℝ) < 1/2 by norm_num)
    (show (0:ℝ) < 1 by norm_num) (show |(1:ℝ)| ≤ ((2:ℕ):ℝ) by norm_num)
  exact ⟨_, h.1, h.2.1, h.2.2⟩

/-- C2: whenever generation succeeds with nr_points >= 2, the face list
is exactly `faceAt 0, ..., faceAt (nr_points - 2)` with
`faceAt k = [2k, 2k + 1, 2k + 3, 2k + 2]` (the indices
`len(vertices) + {-4, -3, -1, -2}` at step k + 1); every face index is
below `len(vertices) = 2 * nr_points`; consecutive faces share exactly
the two indices 2k + 2 and 2k + 3; and for nr_points >= 4 the first and
last faces share no index (an open strip, not a loop). -/
theorem C2_quad_strip (p : Params) (vs : List Vec3) (fs : List (List ℕ))
    (hnp : 2 ≤ p.nr_points) (h : generate p = .ok (vs, fs)) :
    vs.length = 2 * p.nr_points ∧
    fs = (List.range (p.nr_points - 1)).map faceAt ∧
    (∀ k, k < p.nr_points - 1 → ∀ j ∈ faceAt k, j < vs.length) ∧
    (∀ k, k + 1 < p.nr_points - 1 →
      ∀ j, (j ∈ faceAt k ∧ j ∈ faceAt (k + 1)) ↔ (j = 2 * k + 2 ∨ j = 2 * k + 3)) ∧
    (4 ≤ p.nr_points → ∀ j ∈ faceAt 0, j ∉ faceAt (p.nr_points - 2)) := by
  obtain ⟨hvs, hfs⟩ := generate_ok_inv p vs fs (by omega) h
  subst hvs
  subst hfs
  refine ⟨verts_length p, rfl, ?_, ?_, ?_⟩
  · intro k hk j hj
    rw [verts_length p]
    simp only [faceAt, List.mem_cons, List.not_mem_nil, or_false] at hj
    omega
  · intro k hk j
    simp only [faceAt, List.mem_cons, List.not_mem_nil, or_false]
    omega
  · intro h4 j hj hj2
    simp only [faceAt, List.mem_cons, List.not_mem_nil, or_false] at hj hj2
    omega

/-- The linear parameter set nr_points = 2, nr_turns = 0, radius = 1,
zero tapers and offset, used to evaluate the generator concretely. -/
noncomputable def pLin : Params := ⟨"linear", 2, 0, 1, 0, 0, 0, 1⟩

lemma radius_pLin0 : radius_at pLin 0 = .ok 0 := by
  rw [radius_at_linear pLin 0 rfl]
  norm_num [pLin]

lemma radius_pLin1 : radius_at pLin 1 = .ok (1/2) := by
  rw [radius_at_linear pLin 1 rfl]
  norm_num [pLin]

lemma generate_pLin :
    generate pLin =
      .ok ([((0:ℝ), (0:ℝ), (0:ℝ)), (0, 0, 0), ((1:ℝ)/2, 0, 0), (1/2, 0, 0)],
           [[0, 1, 3, 2]]) := by
  have hok := okParams_radius_ok pLin (Or.inl rfl)
  rw [generate_closed pLin (show 1 ≤ 2 by norm_num) hok]
  have hw0 : width_at pLin 0 = 0 := by unfold width_at; norm_num [pLin]
  have hw1 : width_at pLin 1 = 0 := by unfold width_at; norm_num [pLin]
  have ha0 : angle pLin 0 = 0 := by unfold angle; norm_num [pLin]
  have ha1 : angle pLin 1 = 0 := by unfold angle; norm_num [pLin]
  have hv10 : vert1 pLin 0 = (0, 0, 0) := by
    unfold vert1
    rw [radiusVal_eq pLin 0 0 radius_pLin0, pt1_eq, ha0, hw0]
    norm_num
  have hv20 : vert2 pLin 0 = (0, 0, 0) := by
    unfold vert2
    rw [radiusVal_eq pLin 0 0 radius_pLin0, pt2_eq, ha0, hw0]
    norm_num
  have hv11 : vert1 pLin 1 = ((1:ℝ)/2, 0, 0) := by
    unfold vert1
    rw [radiusVal_eq pLin 1 (1/2) radius_pLin1, pt1_eq, ha1, hw1]
    norm_num
  have hv21 : vert2 pLin 1 = ((1:ℝ)/2, 0, 0) := by
    unfold vert2
    rw [radiusVal_eq pLin 1 (1/2) radius_pLin1, pt2_eq, ha1, hw1]
    norm_num
  have hverts : verts pLin =
      [((0:ℝ), (0:ℝ), (0:ℝ)), (0, 0, 0), ((1:ℝ)/2, 0, 0), (1/2, 0, 0)] := by
    unfold verts
    rw [show pLin.nr_points = 2 from rfl,
      show List.range 2 = [0, 1] from rfl]
    simp only [List.flatMap_cons, List.flatMap_nil, List.append_nil]
    rw [hv10, hv20, hv11, hv21]
    rfl
  rw [hverts, show pLin.nr_points = 2 from rfl,
    show facesIdx 2 = [[0, 1, 3, 2]] from rfl]

/-- Witness for C2 at the linear parameter set pLin (nr_points = 2):
4 vertices and the single face [0, 1, 3, 2]. -/
theorem C2_quad_strip_witness :
    ([((0:ℝ), (0:ℝ), (0:ℝ)), (0, 0, 0), ((1:ℝ)/2, 0, 0), (1/2, 0, 0)] :
      List Vec3).length = 2 * 2 ∧
    ([[0, 1, 3, 2]] : List (List ℕ)) = (List.range (2 - 1)).map faceAt := by
  have h := C2_quad_strip pLin _ _ (show 2 ≤ 2 by norm_num) generate_pLin
  exact ⟨h.1, h.2.1⟩

/-- C10: the homogeneous matrix chain
`Rotate(angle) * Translate(r, 0, 0) * Rotate(pi/2 +- pi/2) *
Translate(w/2, 0, 0)` applied to the origin equals the closed-form polar
points `((r -+ w/2) cos angle, (r -+ w/2) sin angle, 0)`; hence both edge
points have z = 0, every vertex of a successful generation lies in the
XY plane, and the distance between the two edge points of a sample is
exactly the full width w. -/
theorem C10_matrix_refinement :
    (∀ (p : Params) (i : ℕ) (r w : ℝ),
      pt1 p i r w = ((r - w / 2) * Real.cos (angle p i),
        (r - w / 2) * Real.sin (angle p i), 0) ∧
      pt2 p i r w = ((r + w / 2) * Real.cos (angle p i),
        (r + w / 2) * Real.sin (angle p i), 0) ∧
      (pt1 p i r w).2.2 = 0 ∧ (pt2 p i r w).2.2 = 0 ∧
      (0 ≤ w → dist3 (pt1 p i r w) (pt2 p i r w) = w)) ∧
    (∀ (p : Params) (vs : List Vec3) (fs : List (List ℕ)),
      generate p = .ok (vs, fs) → ∀ v ∈ vs, v.2.2 = 0) := by
  constructor
  · intro p i r w
    refine ⟨pt1_eq p i r w, pt2_eq p i r w, by rw [pt1_eq], by rw [pt2_eq], ?_⟩
    intro hw
    rw [pt1_eq, pt2_eq]
    unfold dist3
    have hsq : ((r - w / 2) * Real.cos (angle p i) -
          (r + w / 2) * Real.cos (angle p i)) ^ 2 +
        ((r - w / 2) * Real.sin (angle p i) -
          (r + w / 2) * Real.sin (angle p i)) ^ 2 + ((0:ℝ) - 0) ^ 2 = w ^ 2 := by
      have hcs := Real.sin_sq_add_cos_sq (angle p i)
      calc ((r - w / 2) * Real.cos (angle p i) -
            (r + w / 2) * Real.cos (angle p i)) ^ 2 +
          ((r - w / 2) * Real.sin (angle p i) -
            (r + w / 2) * Real.sin (angle p i)) ^ 2 + ((0:ℝ) - 0) ^ 2
          = w ^ 2 * (Real.sin (angle p i) ^ 2 + Real.cos (angle p i) ^ 2) := by
            ring
        _ = w ^ 2 := by rw [hcs, mul_one]
    rw [hsq]
    exact Real.sqrt_sq hw
  · intro p vs fs h v hv
    rcases Nat.eq_zero_or_pos p.nr_points with h0 | h0
    · have hnil : generate p = .ok ([], []) := by
        unfold generate
        rw [h0]
        rfl
      have h2 := Except.ok.inj (hnil.symm.trans h)
      have hvs : vs = [] := (congrArg Prod.fst h2).symm
      subst hvs
      exact absurd hv (by simp)
    · obtain ⟨hvs, _⟩ := generate_ok_inv p vs fs h0 h
      subst hvs
      unfold verts at hv
      rw [List.mem_flatMap] at hv
      obtain ⟨i, _, hv⟩ := hv
      simp only [List.mem_cons, List.not_mem_nil, or_false] at hv
      rcases hv with hv | hv
      · rw [hv]
        unfold vert1
        rw [pt1_eq]
      · rw [hv]
        unfold vert2
        rw [pt2_eq]

/-- Witness for C10 at i = 0, r = 1, w = 1. -/
theorem C10_matrix_refinement_witness :
    pt1 pLin 0 1 1 =
      ((1 - 1 / 2) * Real.cos (angle pLin 0),
       (1 - 1 / 2) * Real.sin (angle pLin 0), 0) ∧
    dist3 (pt1 pLin 0 1 1) (pt2 pLin 0 1 1) = 1 := by
  have h := C10_matrix_refinement.1 pLin 0 1 1
  exact ⟨h.1, h.2.2.2.2 (show (0:ℝ) ≤ 1 by norm_num)⟩

end Curlicue
